import Mathlib

/-!
Verification of the RAG pipeline in `src/RAG` (md_to_vectors.py, rag_chat.py).

Python strings are embedded as `List Char`, numpy float vectors as `List Rat`
(the claims under study are order-theoretic, so exact rational arithmetic is an
adequate model of the score computations), and the single `.npz` artifact as a
record holding the two stored arrays.
-/

namespace RagSpec

/-- Whitespace as recognized by Python `str.strip` on ASCII input:
space, tab, newline, carriage return, vertical tab, form feed. -/
def pyIsSpace (c : Char) : Bool :=
  c == ' ' || c == '\t' || c == '\n' || c == '\r' || c == Char.ofNat 11 || c == Char.ofNat 12

/-- Python `s.strip()`: drop whitespace from both ends. -/
def pyStrip (s : List Char) : List Char :=
  ((s.dropWhile pyIsSpace).reverse.dropWhile pyIsSpace).reverse

/-- Helper for the splitter: prepend a character to the first piece. -/
def consHead (c : Char) : List (List Char) → List (List Char)
  | [] => [[c]]
  | p :: ps => (c :: p) :: ps

/-- Embedding of `re.split(r'(?m)^(?=#)', text)` (md_to_vectors.py line 9):
cut before every character `#` that stands at the start of a line (position 0
or right after a newline). The Boolean argument records whether the current
position is a line start. Like Python `re.split` on a zero-width pattern, a
document starting with `#` yields an empty leading piece, and the pieces
concatenate back to the input. -/
def reSplitHeads : List Char → Bool → List (List Char)
  | [], _ => [[]]
  | c :: cs, ls =>
    if ls && c == '#' then [] :: consHead c (reSplitHeads cs false)
    else consHead c (reSplitHeads cs (c == '\n'))

/-- Embedding of md_to_vectors.py line 9:
`chunks = [c.strip() for c in re.split(r'(?m)^(?=#)', text) if c.strip()]`. -/
def segment (text : List Char) : List (List Char) :=
  ((reSplitHeads text true).map pyStrip).filter (fun p => !p.isEmpty)

/-- True when some line of the text starts with the character `#`
(the document contains at least one heading-marker line). -/
def hasHeadingLine : List Char → Bool → Bool
  | [], _ => false
  | c :: cs, ls => (ls && c == '#') || hasHeadingLine cs (c == '\n')

/-- The text has at least one line starting with `#`. -/
def hasHeading (text : List Char) : Bool :=
  hasHeadingLine text true

/-- Dot product of two vectors, `zipWith`-style as numpy does for 1-d @ 1-d. -/
def dotProd (u v : List Rat) : Rat :=
  (List.zipWith (fun a b => a * b) u v).sum

/-- Embedding of `sims = embs @ q_emb` (rag_chat.py line 24):
one dot product per matrix row. -/
def simsOf (embs : List (List Rat)) (q : List Rat) : List Rat :=
  embs.map (fun e => dotProd e q)

/-- Comparison used to model `np.argsort`: ascending by score, equal scores
resolved by ascending position (the stable model of argsort). The relation is
total, transitive and antisymmetric, so every sorting algorithm produces the
same index order from it. -/
def argRel (sims : List Rat) (i j : Nat) : Prop :=
  sims.getD i 0 < sims.getD j 0 ∨ (sims.getD i 0 = sims.getD j 0 ∧ i ≤ j)

instance argRelDecidable (sims : List Rat) : DecidableRel (argRel sims) := fun i j =>
  inferInstanceAs (Decidable (_ ∨ _))

instance argRelTotal (sims : List Rat) : IsTotal Nat (argRel sims) where
  total i j := by
    unfold argRel
    rcases lt_trichotomy (sims.getD i 0) (sims.getD j 0) with h | h | h
    · exact Or.inl (Or.inl h)
    · rcases Nat.le_total i j with hij | hij
      · exact Or.inl (Or.inr ⟨h, hij⟩)
      · exact Or.inr (Or.inr ⟨h.symm, hij⟩)
    · exact Or.inr (Or.inl h)

instance argRelTrans (sims : List Rat) : IsTrans Nat (argRel sims) where
  trans i j k hij hjk := by
    unfold argRel at hij hjk ⊢
    rcases hij with h1 | ⟨h1, h1i⟩ <;> rcases hjk with h2 | ⟨h2, h2i⟩
    · exact Or.inl (h1.trans h2)
    · exact Or.inl (h2 ▸ h1)
    · exact Or.inl (h1 ▸ h2)
    · exact Or.inr ⟨h1.trans h2, Nat.le_trans h1i h2i⟩

/-- Embedding of `sims.argsort()`: the indices `0 .. n-1` sorted so that the
scores they point to are ascending, ties in ascending index order. -/
def argsort (sims : List Rat) : List Nat :=
  (List.range sims.length).insertionSort (argRel sims)

/-- Python slice `l[-k:]` for `k : Nat`: the last `min k (length l)` elements
when `k ≥ 1`; for `k = 0`, `l[-0:]` is `l[0:]`, the whole list. -/
def pySliceLast (k : Nat) (l : List Nat) : List Nat :=
  if k = 0 then l else l.drop (l.length - k)

/-- Embedding of `topk = sims.argsort()[-k:][::-1]` (rag_chat.py line 25),
with the literal `3` of the source generalized to a parameter `k` as in the
spec contract `retrieve(index, query_embedding, k)`. -/
def topkK (sims : List Rat) (k : Nat) : List Nat :=
  (pySliceLast k (argsort sims)).reverse

/-- Embedding of rag_chat.py line 25 exactly as written, with `k = 3`. -/
def topkOf (sims : List Rat) : List Nat :=
  topkK sims 3

/-- The delimiter `"\n\n---\n\n"` of rag_chat.py line 27. -/
def ragDelim : List Char :=
  '\n' :: '\n' :: '-' :: '-' :: '-' :: '\n' :: '\n' :: []

/-- Python `sep.join(blocks)`: concatenation with `sep` between
consecutive blocks. -/
def pyJoin (sep : List Char) : List (List Char) → List Char
  | [] => []
  | [b] => b
  | b :: b2 :: bs => b ++ sep ++ pyJoin sep (b2 :: bs)

/-- Embedding of rag_chat.py line 27:
`retrieved_blocks = "\n\n---\n\n".join(texts[i] for i in topk)`. -/
def retrievedBlocks (texts : List (List Char)) (idxs : List Nat) : List Char :=
  pyJoin ragDelim (idxs.map (fun i => texts.getD i []))

/-- The persisted artifact. Modelled from the spec: the `np.savez` /
`np.load` container (numpy library code, external to src/) is a faithful
single-file artifact holding the dense embedding matrix and the ordered
chunk texts under their two keys. -/
structure Npz where
  embs : List (List Rat)
  texts : List (List Char)
deriving Repr, DecidableEq

/-- Embedding of the build phase of md_to_vectors.py (lines 9-14): segment the
document, embed every chunk in order (the batched `model.encode(chunks)` call,
with the external provider abstracted as a function), and persist embeddings
and texts into the artifact. No branch of the script checks for zero chunks. -/
def buildIndex (text : List Char) (embed : List Char → List Rat) : Npz :=
  { embs := (segment text).map embed, texts := segment text }

/-- Embedding of rag_chat.py lines 6-8: `z = np.load(...)`,
`embs = z["embs"]`, `texts = z["texts"].tolist()`. The two arrays are read
back verbatim; the script performs no consistency check. -/
def loadIndex (z : Npz) : List (List Rat) × List (List Char) :=
  (z.embs, z.texts)

/-- Modelled from the spec: the `load` contract of spec section 4.2, which
demands a `CorruptIndexError` when chunk count and embedding-row count
disagree. Stated here only to compare with `loadIndex`, the behavior of the
source. -/
def specLoad (z : Npz) : Except String (List (List Rat) × List (List Char)) :=
  if z.embs.length = z.texts.length then Except.ok (z.embs, z.texts)
  else Except.error "CorruptIndexError"

/-- Embedding of one iteration of the interactive loop of rag_chat.py
(lines 18-27): read a line, strip it, `continue` when empty, otherwise embed
the query, score, take the top-k and assemble the context block. The result
pairs the (unchanged, never written) index with the optional work performed:
`none` means the iteration was skipped before any embedding, scoring,
retrieval or chat request. -/
def loopStep (embs : List (List Rat)) (texts : List (List Char))
    (embedQ : List Char → List Rat) (line : List Char) :
    (List (List Rat) × List (List Char)) × Option (List Nat × List Char) :=
  let query := pyStrip line
  if query.isEmpty then ((embs, texts), none)
  else
    let qEmb := embedQ query
    let tk := topkOf (simsOf embs qEmb)
    ((embs, texts), some (tk, retrievedBlocks texts tk))

/-- Character offset at which the block of rank `r` begins inside the joined
context: the lengths of the earlier blocks plus one 7-character delimiter
per earlier block. -/
def blockOffset (blocks : List (List Char)) (r : Nat) : Nat :=
  ((blocks.take r).map (fun b => b.length + 7)).sum

/-- Modelled from the spec: a heading marker in the sense of spec section 4.1,
one or more `#` characters followed by a whitespace character, read at the
given position. Stated only to compare with the splitting the source
actually performs. -/
def specMarkerAt (l : List Char) : Bool :=
  decide (1 ≤ (l.takeWhile (fun c => c == '#')).length) &&
    (match (l.dropWhile (fun c => c == '#')).head? with
     | some c => pyIsSpace c
     | none => false)

/-- Modelled from the spec: the splitter the claim describes, cutting only
where a line starts with a heading marker in the spec's sense
(`specMarkerAt`). -/
def specSplitHeads : List Char → Bool → List (List Char)
  | [], _ => [[]]
  | c :: cs, ls =>
    if ls && specMarkerAt (c :: cs) then [] :: consHead c (specSplitHeads cs (c == '\n'))
    else consHead c (specSplitHeads cs (c == '\n'))

/-- Modelled from the spec: segmentation with the spec's marker definition,
then the same trim-and-drop as the source. -/
def specSegment (text : List Char) : List (List Char) :=
  ((specSplitHeads text true).map pyStrip).filter (fun p => !p.isEmpty)

/-- A character that survives `str.strip`: not whitespace. -/
def nonspace (c : Char) : Bool := !pyIsSpace c

/-! Helper lemmas about the splitter and stripping. -/

/-- Prepending a character to the first piece prepends it to the
concatenation. -/
theorem consHead_flatten (c : Char) (ps : List (List Char)) :
    (consHead c ps).flatten = c :: ps.flatten := by
  cases ps <;> simp [consHead]

/-- The pieces produced by the splitter concatenate back to the input:
`re.split` on a zero-width pattern loses no characters. -/
theorem reSplitHeads_flatten (cs : List Char) : ∀ ls, (reSplitHeads cs ls).flatten = cs := by
  induction cs with
  | nil => intro ls; simp [reSplitHeads]
  | cons c cs ih =>
    intro ls
    cases hls : (ls && c == '#') <;>
      simp [reSplitHeads, hls, consHead_flatten, ih]

/-- Dropping a `q`-prefix does not change the `p`-filtered content when `q`
and `p` are incompatible. -/
theorem filter_dropWhile_eq (p q : Char → Bool) (hpq : ∀ a, q a = true → p a = false)
    (l : List Char) : (l.dropWhile q).filter p = l.filter p := by
  induction l with
  | nil => rfl
  | cons c l ih =>
    cases hq : q c
    · simp [List.dropWhile_cons, hq]
    · simp [List.dropWhile_cons, hq, ih, List.filter_cons, hpq c hq]

/-- Stripping only removes whitespace: the non-whitespace content is
untouched. -/
theorem filter_pyStrip (s : List Char) :
    (pyStrip s).filter nonspace = s.filter nonspace := by
  have hpq : ∀ a, pyIsSpace a = true → nonspace a = false := by
    intro a ha; simp [nonspace, ha]
  unfold pyStrip
  rw [List.filter_reverse, filter_dropWhile_eq _ _ hpq, List.filter_reverse,
    List.reverse_reverse, filter_dropWhile_eq _ _ hpq]

/-- A fully-whitespace span strips to nothing. -/
theorem pyStrip_eq_nil_of_space (s : List Char) (h : ∀ c ∈ s, pyIsSpace c = true) :
    pyStrip s = [] := by
  have h0 : s.dropWhile pyIsSpace = [] := List.dropWhile_eq_nil_iff.mpr h
  unfold pyStrip
  rw [h0]
  rfl

/-- Trimming every piece and dropping the blank ones preserves the
non-whitespace character stream of the concatenation. -/
theorem segment_filter_flatten (pieces : List (List Char)) :
    (((pieces.map pyStrip).filter (fun p => !p.isEmpty)).flatten).filter nonspace
      = pieces.flatten.filter nonspace := by
  induction pieces with
  | nil => rfl
  | cons p ps ih =>
    cases hp : (pyStrip p).isEmpty
    · simp [List.filter_cons, hp, List.filter_append, filter_pyStrip, ih]
    · have hnil : pyStrip p = [] := by
        cases hmt : pyStrip p
        · rfl
        · rw [hmt] at hp; simp at hp
      have hempty : p.filter nonspace = [] := by
        rw [← filter_pyStrip, hnil]; rfl
      simp only [List.map_cons, List.filter_cons, hp, Bool.not_true, List.flatten_cons,
        List.filter_append, hempty, ih]
      simp [ih]

/-- `consHead` touches only the first piece, so it preserves the tail. -/
theorem consHead_tail (c : Char) (ps : List (List Char)) :
    (consHead c ps).tail = ps.tail := by
  cases ps <;> rfl

/-- Membership in `consHead c ps`: either the (extended) first piece, which
starts with `c`, or a piece from the tail of `ps`. -/
theorem mem_consHead {p : List Char} {c : Char} {ps : List (List Char)}
    (h : p ∈ consHead c ps) : (∃ r, p = c :: r) ∨ p ∈ ps.tail := by
  cases ps with
  | nil =>
    simp [consHead] at h
    exact Or.inl ⟨[], h⟩
  | cons q qs =>
    simp [consHead] at h
    rcases h with h | h
    · exact Or.inl ⟨q, h⟩
    · exact Or.inr h

/-- Every piece after the first produced by the splitter begins with `#`:
the code cuts exactly before a `#` at a line start, whether or not the `#`
is followed by whitespace. -/
theorem reSplitHeads_tail_hash (cs : List Char) :
    ∀ ls p, p ∈ (reSplitHeads cs ls).tail → ∃ t, p = '#' :: t := by
  induction cs with
  | nil => intro ls p h; simp [reSplitHeads] at h
  | cons c cs ih =>
    intro ls p h
    cases hls : (ls && c == '#')
    · rw [reSplitHeads, hls] at h
      simp only [Bool.false_eq_true, if_false] at h
      rw [consHead_tail] at h
      exact ih (c == '\n') p h
    · rw [reSplitHeads, hls] at h
      simp only [if_true, List.tail_cons] at h
      have hc : c = '#' := by
        have := (Bool.and_eq_true _ _).mp hls
        exact eq_of_beq this.2
      rcases mem_consHead h with ⟨r, hr⟩ | h2
      · exact ⟨r, hc ▸ hr⟩
      · exact ih false p h2

/-! Claim theorems. -/

/-- C8: for every document with at least one heading-marker line, the chunk
texts produced by `segment`, concatenated in output order, reproduce the
document's non-blank (non-whitespace) content exactly and in original order —
segmentation loses only whitespace, never content. -/
theorem c8_lossless (text : List Char) (hh : hasHeading text = true) :
    ((segment text).flatten).filter nonspace = text.filter nonspace := by
  unfold segment
  rw [segment_filter_flatten, reSplitHeads_flatten]

/-- Witness for C8 at the spec's own scenario document. -/
theorem c8_lossless_witness :
    hasHeading ("# A\ntext1\n# B\ntext2".data) = true ∧
    ((segment ("# A\ntext1\n# B\ntext2".data)).flatten).filter nonspace
      = ("# A\ntext1\n# B\ntext2".data).filter nonspace :=
  ⟨by decide, c8_lossless ("# A\ntext1\n# B\ntext2".data) (by decide)⟩

/-- C4 counterexample: the source splits at every line whose first character
is `#`, with no requirement of following whitespace. On `"a\n#b\nc"` the code
produces two chunks, cutting at `#b`, while a segmenter using the claim's
marker definition (one or more `#` followed by whitespace, `specSegment`)
produces a single chunk because `#b` is not a heading marker in that sense. -/
theorem c4_counterexample :
    segment ("a\n#b\nc".data) = ["a".data, "#b\nc".data] ∧
    specSegment ("a\n#b\nc".data) = ["a\n#b\nc".data] := by
  constructor <;> rfl

/-- C4 amended: `segment` splits at the start of each line beginning with the
character `#` (whitespace after the marker is not required), using lookahead
so the marker line opens the following chunk; the spec's scenario document
segments into exactly its two heading blocks, and every split piece after the
first begins with `#`. -/
theorem c4_segment :
    segment ("# A\ntext1\n# B\ntext2".data) = ["# A\ntext1".data, "# B\ntext2".data] ∧
    ∀ (text p : List Char), p ∈ (reSplitHeads text true).tail → ∃ t, p = '#' :: t := by
  refine ⟨rfl, ?_⟩
  intro text p hp
  exact reSplitHeads_tail_hash text true p hp

/-- Witness for C4: the tail piece `"#y"` of the split of `"x\n#y"` indeed
starts with `#`. -/
theorem c4_segment_witness :
    ("#y".data ∈ (reSplitHeads ("x\n#y".data) true).tail) ∧ (∃ t, "#y".data = '#' :: t) :=
  ⟨by decide, c4_segment.2 ("x\n#y".data) ("#y".data) (by decide)⟩

/-- C2 counterexample: on a zero-chunk index the query iteration completes
silently. The scores, the top-k selection and the assembled context all come
out empty, and the chat request is still issued (the `some` work item) with
an empty context block — no `EmptyIndex` failure exists anywhere in
rag_chat.py. -/
theorem c2_counterexample :
    loopStep [] [] (fun _ => [1]) ("hi".data) = (([], []), some ([], [])) := by
  rfl

/-- C2 amended: `retrieve` on an index of zero chunks returns the empty
result silently — empty score list, empty top-k, empty context block — for
every query embedding and every `k`; the code raises no error. -/
theorem c2_empty_silent (q : List Rat) (k : Nat) :
    simsOf [] q = [] ∧ topkK (simsOf [] q) k = [] ∧
      retrievedBlocks [] (topkK (simsOf [] q) k) = [] := by
  refine ⟨rfl, ?_, ?_⟩ <;>
    cases k <;> simp [topkK, pySliceLast, argsort, simsOf, retrievedBlocks, pyJoin]

/-- C3 counterexample: the empty document yields zero chunks, and the build
script still completes and persists a zero-chunk artifact — there is no
`EmptyDocument` error in md_to_vectors.py. -/
theorem c3_counterexample :
    segment [] = [] ∧ buildIndex [] (fun _ => [1]) = { embs := [], texts := [] } :=
  ⟨rfl, rfl⟩

/-- C3 amended: every empty or whitespace-only document segments into zero
chunks, and the build then persists a degenerate zero-chunk artifact without
raising any error. -/
theorem c3_blank_build (text : List Char) (embed : List Char → List Rat)
    (h : ∀ c ∈ text, pyIsSpace c = true) :
    segment text = [] ∧ buildIndex text embed = { embs := [], texts := [] } := by
  have hseg : segment text = [] := by
    unfold segment
    rw [List.filter_eq_nil_iff]
    intro p hp
    rw [List.mem_map] at hp
    obtain ⟨r, hr, rfl⟩ := hp
    have hall : ∀ c ∈ r, pyIsSpace c = true := by
      intro c hc
      apply h
      have hm : c ∈ (reSplitHeads text true).flatten := List.mem_flatten.mpr ⟨r, hr, hc⟩
      rwa [reSplitHeads_flatten] at hm
    simp [pyStrip_eq_nil_of_space r hall]
  refine ⟨hseg, ?_⟩
  unfold buildIndex
  rw [hseg]
  rfl

/-- Witness for C3 at a concrete whitespace-only document. -/
theorem c3_blank_build_witness :
    segment ("   \n  ".data) = [] ∧
    buildIndex ("   \n  ".data) (fun _ => [1]) = { embs := [], texts := [] } :=
  c3_blank_build ("   \n  ".data) (fun _ => [1]) (by decide)

/-- C5: for every document and every deterministic embedding function, build
followed by persist followed by load reproduces the identical ordered
sequence of (chunk text, embedding) pairs. The artifact container is the
external `np.savez` / `np.load` pair, modelled as a faithful store. -/
theorem c5_roundtrip (text : List Char) (embed : List Char → List Rat) :
    ((loadIndex (buildIndex text embed)).2).zip (loadIndex (buildIndex text embed)).1
      = (segment text).zip ((segment text).map embed) :=
  rfl

/-- C7 counterexample: an artifact whose embedding matrix has two rows but
whose text list has a single entry is rejected by the spec's `load` contract
(`specLoad` returns `CorruptIndexError`), yet the source's load returns an
index built from the two inconsistent arrays verbatim — rag_chat.py performs
no consistency check. -/
theorem c7_counterexample :
    specLoad { embs := [[1], [2]], texts := [['a']] } = Except.error "CorruptIndexError" ∧
    loadIndex { embs := [[1], [2]], texts := [['a']] } = ([[1], [2]], [['a']]) :=
  ⟨rfl, rfl⟩

/-- C7 amended: `load` performs no validation at all — for every artifact,
including one whose chunk count disagrees with its embedding-row count, it
returns the stored arrays verbatim instead of failing. -/
theorem c7_no_validation (z : Npz) (h : z.embs.length ≠ z.texts.length) :
    loadIndex z = (z.embs, z.texts) :=
  rfl

/-- Witness for C7 at the mismatched artifact. -/
theorem c7_no_validation_witness :
    loadIndex { embs := [[1], [2]], texts := [['a']] } = ([[1], [2]], [['a']]) :=
  c7_no_validation { embs := [[1], [2]], texts := [['a']] } (by decide)

/-- C10: a line that is empty or whitespace-only after stripping makes the
interactive loop skip the whole iteration: no query embedding, no scoring,
no top-k selection and no chat request (`none`), and the loaded index passes
through unchanged. -/
theorem c10_blank_skip (embs : List (List Rat)) (texts : List (List Char))
    (embedQ : List Char → List Rat) (line : List Char)
    (h : pyStrip line = []) :
    loopStep embs texts embedQ line = ((embs, texts), none) := by
  unfold loopStep
  rw [h]
  rfl

/-- Witness for C10 at a concrete whitespace-only input line. -/
theorem c10_blank_skip_witness :
    loopStep [[1]] [['x']] (fun _ => [1]) (" \t ".data) = (([[1]], [['x']]), none) :=
  c10_blank_skip [[1]] [['x']] (fun _ => [1]) (" \t ".data) (by decide)

/-! Helper lemmas about the top-k selection. -/

/-- The argsort output is pairwise ordered by the comparison relation. -/
theorem argsort_sorted (s : List Rat) : (argsort s).Pairwise (argRel s) :=
  List.sorted_insertionSort (argRel s) (List.range s.length)

/-- The argsort output has no repeated index. -/
theorem argsort_nodup (s : List Rat) : (argsort s).Nodup :=
  ((List.perm_insertionSort (argRel s) (List.range s.length)).symm).nodup
    (List.nodup_range s.length)

/-- The argsort output is as long as the score list. -/
theorem argsort_length (s : List Rat) : (argsort s).length = s.length := by
  unfold argsort
  rw [(List.perm_insertionSort (argRel s) (List.range s.length)).length_eq,
    List.length_range]

/-- The Python slice `l[-k:]` keeps a sublist. -/
theorem pySliceLast_sublist (k : Nat) (l : List Nat) : (pySliceLast k l).Sublist l := by
  unfold pySliceLast
  split
  · exact List.Sublist.refl l
  · exact List.drop_sublist _ l

/-- The top-k index list is pairwise ordered: earlier entries have
`argRel`-larger positions, and all entries are distinct. -/
theorem topkK_pairwise (s : List Rat) (k : Nat) :
    (topkK s k).Pairwise (fun i j => argRel s j i ∧ i ≠ j) := by
  have hs : (pySliceLast k (argsort s)).Pairwise (argRel s) :=
    List.Pairwise.sublist (pySliceLast_sublist k (argsort s)) (argsort_sorted s)
  have hd : (pySliceLast k (argsort s)).Nodup :=
    List.Nodup.sublist (pySliceLast_sublist k (argsort s)) (argsort_nodup s)
  have hrev := List.pairwise_reverse.mpr (hs.and hd)
  exact hrev.imp (fun h => ⟨h.1, fun e => h.2 e.symm⟩)

/-- C1 amended: for every index, query embedding and `k`, the top-k result is
sorted by descending similarity score, and entries with exactly equal scores
appear in DESCENDING order of original chunk index — the reversal of the
ascending argsort flips the tie order, so the claim's ascending tie-break
does not hold, but the output is still a deterministic function of the
scores under the stable argsort model. -/
theorem c1_rank_order (embs : List (List Rat)) (q : List Rat) (k : Nat) :
    (topkK (simsOf embs q) k).Pairwise (fun i j =>
      (simsOf embs q).getD j 0 < (simsOf embs q).getD i 0 ∨
        ((simsOf embs q).getD j 0 = (simsOf embs q).getD i 0 ∧ j < i)) := by
  have h := topkK_pairwise (simsOf embs q) k
  refine h.imp ?_
  intro i j hij
  rcases hij with ⟨h1 | ⟨he, hle⟩, hne⟩
  · exact Or.inl h1
  · exact Or.inr ⟨he, Nat.lt_of_le_of_ne hle (fun e => hne e.symm)⟩

/-- C1 counterexample: two chunks with identical embeddings tie exactly, and
the code returns them as `[1, 0]` — descending original index — while the
claim demands ascending original index for equal scores. -/
theorem c1_counterexample :
    simsOf [[1], [1]] [1] = [1, 1] ∧
    topkK (simsOf [[1], [1]] [1]) 3 = [1, 0] ∧
    ¬ (topkK (simsOf [[1], [1]] [1]) 3).Pairwise (fun i j =>
        (simsOf [[1], [1]] [1]).getD j 0 < (simsOf [[1], [1]] [1]).getD i 0 ∨
          ((simsOf [[1], [1]] [1]).getD j 0 = (simsOf [[1], [1]] [1]).getD i 0 ∧ i < j)) := by
  have hdot : dotProd [1] [1] = 1 := by norm_num [dotProd]
  have hs : simsOf [[1], [1]] [1] = [1, 1] := by simp [simsOf, hdot]
  have h01 : argRel [1, 1] 0 1 := Or.inr ⟨rfl, Nat.zero_le 1⟩
  have harg : argsort [1, 1] = [0, 1] := by
    show List.insertionSort (argRel [1, 1]) [0, 1] = [0, 1]
    simp [List.insertionSort, List.orderedInsert, h01]
  have htop : topkK (simsOf [[1], [1]] [1]) 3 = [1, 0] := by
    rw [hs]
    simp [topkK, harg, pySliceLast]
  refine ⟨hs, htop, ?_⟩
  intro h
  rw [htop] at h
  have h10 := (List.pairwise_cons.mp h).1 0 (List.mem_singleton.mpr rfl)
  rw [hs] at h10
  rcases h10 with h1 | ⟨_, h2⟩
  · exact absurd h1 (lt_irrefl _)
  · exact absurd h2 (by omega)

/-- C6: for every index, query embedding and requested `k ≥ 1`, the top-k
selection returns exactly `min k n` results, `n` the number of chunks: the
Python slice `[-k:]` clamps `k` to the index size. -/
theorem c6_clamped (embs : List (List Rat)) (q : List Rat) (k : Nat)
    (hn : 1 ≤ embs.length) (hk : 1 ≤ k) :
    (topkK (simsOf embs q) k).length = min k embs.length := by
  have hlen : (argsort (simsOf embs q)).length = embs.length := by
    rw [argsort_length]
    simp [simsOf]
  unfold topkK pySliceLast
  rw [List.length_reverse]
  rw [if_neg (by omega : ¬ k = 0), List.length_drop, hlen]
  omega

/-- Witness for C6 at the spec's scenario: an index of 5 chunks queried with
`k = 10` returns exactly `min 10 5 = 5` results. -/
theorem c6_clamped_witness :
    (topkK (simsOf [[1], [2], [3], [4], [5]] [1]) 10).length = min 10 5 :=
  c6_clamped [[1], [2], [3], [4], [5]] [1] 10 (by decide) (by decide)

/-! Helper lemmas about the context assembly. -/

/-- Joining with a separator accounts every block in full plus one separator
between consecutive blocks: nothing is deduplicated or truncated. -/
theorem pyJoin_length (sep : List Char) :
    ∀ blocks : List (List Char), blocks ≠ [] →
      (pyJoin sep blocks).length
        = (blocks.map List.length).sum + sep.length * (blocks.length - 1) := by
  intro blocks
  induction blocks with
  | nil => intro h; exact absurd rfl h
  | cons b bs ih =>
    intro _
    cases bs with
    | nil => simp [pyJoin]
    | cons b2 bs2 =>
      have h2 := ih (by simp)
      rw [pyJoin]
      simp only [List.length_append, List.map_cons, List.sum_cons, List.length_cons] at h2 ⊢
      rw [h2]
      have e1 : bs2.length + 1 + 1 - 1 = bs2.length + 1 := rfl
      have e2 : bs2.length + 1 - 1 = bs2.length := rfl
      rw [e1, e2, Nat.mul_add, Nat.mul_one]
      omega

/-- The offset of rank `r + 1` skips the first block and its delimiter. -/
theorem blockOffset_cons (b : List Char) (bs : List (List Char)) (r : Nat) :
    blockOffset (b :: bs) (r + 1) = b.length + 7 + blockOffset bs r := by
  simp [blockOffset, List.take_succ_cons]

/-- Inside the joined context, the block of rank `r` sits verbatim at its
offset: rank order is preserved positionally. -/
theorem pyJoin_extract :
    ∀ (blocks : List (List Char)) (r : Nat), r < blocks.length →
      ((pyJoin ragDelim blocks).drop (blockOffset blocks r)).take (blocks.getD r []).length
        = blocks.getD r [] := by
  intro blocks
  induction blocks with
  | nil => intro r h; simp at h
  | cons b bs ih =>
    intro r h
    cases r with
    | zero =>
      have h0 : blockOffset (b :: bs) 0 = 0 := rfl
      rw [h0, List.drop_zero, List.getD_cons_zero]
      cases bs with
      | nil => simp [pyJoin]
      | cons b2 bs2 =>
        rw [pyJoin, List.append_assoc]
        exact List.take_left b (ragDelim ++ pyJoin ragDelim (b2 :: bs2))
    | succ m =>
      cases bs with
      | nil => simp at h
      | cons b2 bs2 =>
        rw [blockOffset_cons, List.getD_cons_succ, pyJoin, List.append_assoc]
        rw [← List.drop_drop, ← List.drop_drop]
        rw [List.drop_left b (ragDelim ++ pyJoin ragDelim (b2 :: bs2))]
        have hd : List.drop 7 (ragDelim ++ pyJoin ragDelim (b2 :: bs2))
            = pyJoin ragDelim (b2 :: bs2) :=
          List.drop_left ragDelim (pyJoin ragDelim (b2 :: bs2))
        rw [hd]
        exact ih m (by simpa using h)

/-- Reading an element through `map` with any defaults, at an in-range
position. -/
theorem getD_map_lt (f : Nat → List Char) (e : List Char) :
    ∀ (l : List Nat) (n : Nat), n < l.length → (l.map f).getD n e = f (l.getD n 0) := by
  intro l
  induction l with
  | nil => intro n h; simp at h
  | cons a l ih =>
    intro n h
    cases n with
    | zero => rfl
    | succ m =>
      rw [List.map_cons, List.getD_cons_succ, List.getD_cons_succ]
      exact ih m (by simpa using h)

/-- C9: the assembled context concatenates the retrieved chunk texts in rank
order, separated by the fixed 7-character delimiter. Every retrieved text is
accounted in full — total length is the sum of the chunk lengths plus one
delimiter per gap (no deduplication, no truncation) — and the text of rank
`r` appears verbatim at its rank's offset (no reordering). -/
theorem c9_assemble (texts : List (List Char)) (idxs : List Nat) :
    (idxs ≠ [] →
      (retrievedBlocks texts idxs).length
        = ((idxs.map (fun i => (texts.getD i []).length)).sum)
            + ragDelim.length * (idxs.length - 1)) ∧
    (∀ r : Nat, r < idxs.length →
      ((retrievedBlocks texts idxs).drop
            (blockOffset (idxs.map (fun i => texts.getD i [])) r)).take
          (texts.getD (idxs.getD r 0) []).length
        = texts.getD (idxs.getD r 0) []) := by
  constructor
  · intro hne
    unfold retrievedBlocks
    rw [pyJoin_length ragDelim _ (by simpa using hne)]
    rw [List.map_map, List.length_map]
    rfl
  · intro r hr
    have hmap : (idxs.map (fun i => texts.getD i [])).getD r []
        = texts.getD (idxs.getD r 0) [] :=
      getD_map_lt (fun i => texts.getD i []) [] idxs r hr
    have hext := pyJoin_extract (idxs.map (fun i => texts.getD i [])) r (by simpa using hr)
    rw [hmap] at hext
    exact hext

/-- Witness for C9 on a duplicated retrieval `[1, 0, 1]` over two chunks:
the duplicate is kept (length 20 = 2 + 2 + 2 + two delimiters) and the
rank-2 text is extracted verbatim at its offset. -/
theorem c9_assemble_witness :
    (retrievedBlocks [['a', 'a'], ['b', 'b']] [1, 0, 1]).length
        = (([1, 0, 1].map (fun i => ([['a', 'a'], ['b', 'b']].getD i []).length)).sum)
            + ragDelim.length * ([1, 0, 1].length - 1) ∧
    ((retrievedBlocks [['a', 'a'], ['b', 'b']] [1, 0, 1]).drop
          (blockOffset ([1, 0, 1].map (fun i => [['a', 'a'], ['b', 'b']].getD i [])) 2)).take
        ([['a', 'a'], ['b', 'b']].getD ([1, 0, 1].getD 2 0) []).length
      = [['a', 'a'], ['b', 'b']].getD ([1, 0, 1].getD 2 0) [] :=
  ⟨(c9_assemble [['a', 'a'], ['b', 'b']] [1, 0, 1]).1 (by decide),
    (c9_assemble [['a', 'a'], ['b', 'b']] [1, 0, 1]).2 2 (by decide)⟩

end RagSpec
